import Mathlib

/-!
# apex-logentries: handler, ingestion queue and connection loop

A shallow embedding of `logentries.go`.

* The buffered channel `h.ch` is the list of its buffered entries (head = oldest)
  together with its capacity; a non-blocking send succeeds exactly when the
  buffer has room.
* The context `h.ctx` is the flag `ctxDone` (its `Done()` channel is closed).
* A `panic` is an explicit outcome.
* The goroutine running `connectionLoop` is a step function on a system state;
  every step receives the answers of the outside world (dial result, write
  results, timer, the choice `select` makes when several cases are ready).
  Everything the loop does to the outside world is appended to a trace.
* `encoding/json` is outside the repository: `marshal` (the JSON text of an
  entry, or the marshalling error) is a parameter of the loop.
-/

namespace Logentries

/-! ## Data model -/

/-- The Go type `ErrorHandling` is an `int`; the three named modes are `iota` constants. -/
abbrev ErrorHandling := Int

def PanicOnError : ErrorHandling := 0
def LogOnError : ErrorHandling := 1
def IgnoreErrors : ErrorHandling := 2

def defaultQueueLen : Int := 1024

/-- The map `defaultAddress`, keyed by whether TLS is desired. -/
def defaultAddress (useTLS : Bool) : String :=
  match useTLS with
  | false => "data.logentries.com:80"
  | true => "data.logentries.com:443"

/-- The struct `Config`. `TLSConfig` is a pointer to a value of an external
package: `none` is `nil`, `some p` an uninterpreted reference. -/
structure Config where
  Token : String
  UseTLS : Bool
  Address : String
  TLSConfig : Option Nat
  QueueLen : Int
  Discard : Bool
  ErrorHandling : ErrorHandling
deriving DecidableEq, Repr

/-- The struct `Handler`, as far as it is shared between goroutines: the
configuration, the precomputed `pfx`, the channel `ch` (buffered entries and
capacity) and the state of `ctx`. The type `ε` stands for `*log.Entry`. -/
structure Handler (ε : Type) where
  config : Config
  pfx : String
  ch : List ε
  chCap : Nat
  ctxDone : Bool
deriving DecidableEq, Repr

/-- How a Go call ends: it returns a value or it panics. -/
inductive Outcome (α : Type) where
  | ret (v : α)
  | panic (msg : String)
deriving DecidableEq, Repr

/-- Program points of `connectionLoop`: before the dial at the top of the outer
`for`, in the inner `select` (streaming), in the `select` under the label
`Error` (retry wait), returned, or stopped by a panic. -/
inductive Pc where
  | dial
  | stream
  | retry
  | exited
  | panicked (msg : String)
deriving DecidableEq, Repr

/-- What the loop does to the outside world. -/
inductive Event where
  | dial (address : String) (useTLS : Bool) (conn : Option Nat)
  | setWriteDeadline (conn : Nat)
  | write (conn : Nat) (bytes : String) (ok : Bool)
  | close (conn : Nat)
  | stderr (line : String)
deriving DecidableEq, Repr

/-- The handler together with the goroutine started by `New`: its program
point, its local variable `conn` (`none` is `nil`), the number of transports
dialed successfully so far (the next transport gets this number as its
identity) and the trace of its effects. -/
structure Sys (ε : Type) where
  h : Handler ε
  pc : Pc
  conn : Option Nat
  dialed : Nat
  trace : List Event
deriving DecidableEq, Repr

/-- The answers of the outside world to one step of the loop. -/
structure Resp where
  /-- error returned by the dial, `none` when it succeeds -/
  dialErr : Option String
  /-- whether `conn.Write(h.pfx)` succeeds (the code ignores its result) -/
  pfxWriteOk : Bool
  /-- error of the write `enc.Encode` performs, `none` when it succeeds -/
  encWriteErr : Option String
  /-- error returned by `conn.Close()`, `none` when it succeeds -/
  closeErr : Option String
  /-- the case the streaming `select` takes when both are ready -/
  pickDone : Bool
  /-- whether the timer of `time.After(retryDelay)` has fired -/
  timerFired : Bool
deriving DecidableEq, Repr

/-- What other goroutines and the scheduler do, one action at a time. -/
inductive Action (ε : Type) where
  | close
  | log (e : ε)
  | loop (r : Resp)
deriving DecidableEq, Repr

/-! ## Operations -/

/-- The runtime panic of `make(chan T, n)` for a size that is negative or over
the limit of the runtime. -/
def makechanPanic : String := "makechan: size out of range"

/-- The runtime panic of a method call through a nil `net.Conn`. -/
def nilDeref : String := "runtime error: invalid memory address or nil pointer dereference"

/-- The function `New`: defaults for `Address` and `QueueLen`, then the handler
with its channel of capacity `QueueLen`, and the goroutine at the entry of
`connectionLoop`. The call `make(chan *log.Entry, config.QueueLen)` panics on a
negative size and on a size over `maxChanLen`, the largest channel size the Go
runtime allocates for pointer elements; that limit belongs to the runtime and
the platform, not to this repository, and is a parameter. -/
def New {ε : Type} (maxChanLen : Nat) (config : Config) : Outcome (Sys ε) :=
  let config := if config.Address = "" then
    { config with Address := defaultAddress config.UseTLS } else config
  let config := if config.QueueLen = 0 then
    { config with QueueLen := defaultQueueLen } else config
  if config.QueueLen < 0 ∨ (maxChanLen : Int) < config.QueueLen then .panic makechanPanic
  else .ret
    { h := { config := config, pfx := config.Token ++ " ", ch := [],
             chCap := config.QueueLen.toNat, ctxDone := false },
      pc := .dial, conn := none, dialed := 0, trace := [] }

/-- The method `Close`: cancels the context. -/
def Close {ε : Type} (h : Handler ε) : Handler ε :=
  { h with ctxDone := true }

/-- The method `HandleLog`: a non-blocking send on `h.ch`; in the `default` case
the error "queue full" when `Discard` is set, a panic otherwise. `ret none` is
the `nil` error. -/
def HandleLog {ε : Type} (h : Handler ε) (e : ε) : Outcome (Option String) × Handler ε :=
  if h.ch.length < h.chCap then
    (.ret none, { h with ch := h.ch ++ [e] })
  else if h.config.Discard then
    (.ret (some "queue full"), h)
  else
    (.panic "apex-logentries: queue full", h)

/-- The method `handleError`, on the state of the system: a panic with the
error, one line on stderr, or nothing. -/
def handleError {ε : Type} (s : Sys ε) (err : String) : Sys ε :=
  if s.h.config.ErrorHandling = PanicOnError then
    { s with pc := .panicked err }
  else if s.h.config.ErrorHandling = LogOnError then
    { s with trace := s.trace ++ [.stderr ("apex-logentries: " ++ err ++ "\n")] }
  else
    s

/-- Continue with `k` unless the goroutine has panicked. -/
def andThen {ε : Type} (s : Sys ε) (k : Sys ε → Sys ε) : Sys ε :=
  match s.pc with
  | .panicked _ => s
  | _ => k s

/-- The jump `goto Error`, taken after `handleError` returned. -/
def gotoError {ε : Type} (s : Sys ε) : Sys ε :=
  andThen s fun s1 => { s1 with pc := .retry }

/-- The label `Done`: `conn.Close()`, the error policy on a close error, return.
The call is not guarded: on a nil `conn` it is a nil pointer dereference. -/
def gotoDone {ε : Type} (s : Sys ε) (r : Resp) : Sys ε :=
  match s.conn with
  | none => { s with pc := .panicked nilDeref }
  | some c =>
    let s1 := { s with trace := s.trace ++ [.close c] }
    match r.closeErr with
    | none => { s1 with pc := .exited }
    | some err => andThen (handleError s1 err) fun s2 => { s2 with pc := .exited }

/-- The case `log := <-h.ch` of the streaming `select`, for the received entry
`e` and the rest of the buffer: deadline, write of `pfx` (result ignored),
`enc.Encode(log)`, which marshals, appends a newline and writes once. -/
def recvCase {ε : Type} (marshal : ε → Except String String) (s : Sys ε) (r : Resp)
    (e : ε) (rest : List ε) : Sys ε :=
  match s.conn with
  | none => { s with pc := .panicked nilDeref }
  | some c =>
    let s1 := { s with h := { s.h with ch := rest },
                       trace := s.trace ++ [.setWriteDeadline c, .write c s.h.pfx r.pfxWriteOk] }
    match marshal e with
    | .error err => gotoError (handleError s1 err)
    | .ok js =>
      let s2 := { s1 with trace := s1.trace ++ [.write c (js ++ "\n") r.encWriteErr.isNone] }
      match r.encWriteErr with
      | some err => gotoError (handleError s2 err)
      | none => s2

/-- One step of `connectionLoop` from its current program point.

* Before the dial: the dial is attempted whatever the state of the context; on
  failure `conn` is nil, the error goes to `handleError`, then `goto Error`.
* Streaming `select`: with an empty queue and a live context the loop blocks
  (the state stays as it is); when both cases are ready the choice is the
  answer `pickDone`.
* Retry wait: the timer of `time.After(retryDelay)` starts when the `select` is
  entered, so a context that is already cancelled wins; otherwise the loop
  blocks until the timer fires. A timer that fires before `Close` is called is
  a step with `timerFired` followed by the action `close`. -/
def connectionLoop {ε : Type} (marshal : ε → Except String String) (s : Sys ε) (r : Resp) :
    Sys ε :=
  match s.pc with
  | .dial =>
    match r.dialErr with
    | none =>
      { s with conn := some s.dialed, dialed := s.dialed + 1, pc := .stream,
               trace := s.trace ++ [.dial s.h.config.Address s.h.config.UseTLS (some s.dialed)] }
    | some err =>
      gotoError (handleError
        { s with conn := none,
                 trace := s.trace ++ [.dial s.h.config.Address s.h.config.UseTLS none] } err)
  | .stream =>
    match s.h.ch, s.h.ctxDone with
    | [], false => s
    | [], true => gotoDone s r
    | e :: rest, false => recvCase marshal s r e rest
    | e :: rest, true => if r.pickDone then gotoDone s r else recvCase marshal s r e rest
  | .retry =>
    if s.h.ctxDone then gotoDone s r
    else if r.timerFired then { s with pc := .dial }
    else s
  | .exited => s
  | .panicked _ => s

/-- One action of the environment or one step of the loop. A caller of
`HandleLog` that panics does not stop the loop. -/
def act {ε : Type} (marshal : ε → Except String String) (s : Sys ε) : Action ε → Sys ε
  | .close => { s with h := Close s.h }
  | .log e => { s with h := (HandleLog s.h e).2 }
  | .loop r => connectionLoop marshal s r

/-- A run: the actions of a script, in order. -/
def run {ε : Type} (marshal : ε → Except String String) (s : Sys ε) (script : List (Action ε)) :
    Sys ε :=
  script.foldl (act marshal) s

/-! ## Observations on traces -/

/-- The bytes that reached transport `c`: the successful writes, in order. -/
def wire (c : Nat) : List Event → String
  | [] => ""
  | .write c1 bytes true :: t => if c1 = c then bytes ++ wire c t else wire c t
  | _ :: t => wire c t

/-- The transports a trace opened. -/
def openedConns : List Event → List Nat
  | [] => []
  | .dial _ _ (some c) :: t => c :: openedConns t
  | _ :: t => openedConns t

/-- The transports a trace closed. -/
def closedConns : List Event → List Nat
  | [] => []
  | .close c :: t => c :: closedConns t
  | _ :: t => closedConns t

/-- The transports that are open at the end of a trace: dialed and not closed. -/
def openConns (t : List Event) : List Nat :=
  (openedConns t).filter fun c => c ∉ closedConns t

/-- The number of dial attempts in a trace. -/
def dialCount : List Event → Nat
  | [] => 0
  | .dial _ _ _ :: t => dialCount t + 1
  | _ :: t => dialCount t

/-- The lines written to stderr. -/
def stderrLines : List Event → List String
  | [] => []
  | .stderr l :: t => l :: stderrLines t
  | _ :: t => stderrLines t

/-- The wire format of one record: token, a space, the JSON text, a newline. -/
def frame (token js : String) : String :=
  token ++ " " ++ js ++ "\n"

/-- Whether the loop has neither returned nor panicked. -/
def Pc.running : Pc → Bool
  | .dial => true
  | .stream => true
  | .retry => true
  | .exited => false
  | .panicked _ => false

/-- The effects of sending one record whose JSON text is `js` on transport `c`
when nothing fails: the write deadline, the write of `pfx`, the write of the
JSON text with its newline. -/
def sendEvents (c : Nat) (pfx js : String) : List Event :=
  [.setWriteDeadline c, .write c pfx true, .write c (js ++ "\n") true]

/-- The effects of sending the records `es`, in order, when nothing fails. -/
def sendAll {ε : Type} (c : Nat) (pfx : String) (js : ε → String) : List ε → List Event
  | [] => []
  | e :: es => sendEvents c pfx (js e) ++ sendAll c pfx js es

/-- The concatenation of the frames of the records `es`, in order. -/
def frames {ε : Type} (token : String) (js : ε → String) : List ε → String
  | [] => ""
  | e :: es => frame token (js e) ++ frames token js es

/-- The entries submitted by a script, in order. -/
def logged {ε : Type} : List (Action ε) → List ε
  | [] => []
  | .log e :: script => e :: logged script
  | _ :: script => logged script

/-- The entries a script submits and `HandleLog` accepts (it returns the nil
error), in order, when the script runs from the state `s`. -/
def accepted {ε : Type} (marshal : ε → Except String String) (s : Sys ε) :
    List (Action ε) → List ε
  | [] => []
  | .log e :: script =>
    if (HandleLog s.h e).1 = .ret none then e :: accepted marshal (act marshal s (.log e)) script
    else accepted marshal (act marshal s (.log e)) script
  | a :: script => accepted marshal (act marshal s a) script

/-- Nothing fails at this step of the loop: the dial, the write of `pfx` and the
write of the encoder succeed. -/
def Resp.quiet (r : Resp) : Bool :=
  r.dialErr.isNone && r.pfxWriteOk && r.encWriteErr.isNone

/-- An action of a run without shutdown and without transport failure: a
submission, or a step of the loop at which nothing fails. -/
def Action.quiet {ε : Type} : Action ε → Bool
  | .close => false
  | .log _ => true
  | .loop r => r.quiet

/-- The state of a run without shutdown and without failure, for the token
`token` and entries `e` whose JSON text is `js e`: the context is live, the
queued entries can be marshalled, and the loop either stands before its first
dial, having done nothing, or is in the streaming select with transport 0,
having dialed once and written to no other transport. -/
def Flowing {ε : Type} (marshal : ε → Except String String) (js : ε → String)
    (token : String) (s : Sys ε) : Prop :=
  s.h.ctxDone = false ∧ s.h.pfx = token ++ " " ∧
  (∀ e ∈ s.h.ch, marshal e = .ok (js e)) ∧
  ((s.pc = .dial ∧ s.dialed = 0 ∧ s.trace = []) ∨
   (s.pc = .stream ∧ s.conn = some 0 ∧ dialCount s.trace = 1 ∧
     ∀ k, k ≠ 0 → wire k s.trace = ""))

/-! ## Sample values -/

/-- A sample value of the runtime limit on channel sizes: linux/amd64 with
8-byte pointers, `maxAlloc = 2^48` and a channel header of 96 bytes. -/
def maxChanLen64 : Nat := (2 ^ 48 - 96) / 8


/-- A configuration that leaves `Address` and `QueueLen` unset. -/
def sampleConfig : Config :=
  { Token := "abc", UseTLS := true, Address := "", TLSConfig := none, QueueLen := 0,
    Discard := false, ErrorHandling := LogOnError }

/-- A handler with a queue of capacity two, for entries that are their own JSON text. -/
def sampleHandler (queued : List String) (discard : Bool) : Handler String :=
  { config := { sampleConfig with Address := "localhost:10000", QueueLen := 2, Discard := discard },
    pfx := "abc ", ch := queued, chCap := 2, ctxDone := false }

/-- A marshaller for entries that are their own JSON text; the entry "bad" cannot be marshalled. -/
def sampleMarshal (e : String) : Except String String :=
  if e = "bad" then .error "json: unsupported type" else .ok e

/-- The outside world when nothing fails and no timer fires. -/
def okResp : Resp :=
  { dialErr := none, pfxWriteOk := true, encWriteErr := none, closeErr := none,
    pickDone := false, timerFired := false }

/-! ## Lemmas on traces -/

theorem wire_append (c : Nat) (t u : List Event) :
    wire c (t ++ u) = wire c t ++ wire c u := by
  induction t with
  | nil => simp [wire]
  | cons ev t ih =>
    cases ev with
    | write c1 bytes ok =>
      cases ok
      · simp [wire, ih]
      · by_cases hc : c1 = c <;> simp [wire, hc, ih, String.append_assoc]
    | _ => simp [wire, ih]

theorem openedConns_append (t u : List Event) :
    openedConns (t ++ u) = openedConns t ++ openedConns u := by
  induction t with
  | nil => simp [openedConns]
  | cons ev t ih =>
    cases ev with
    | dial a tls conn => cases conn <;> simp [openedConns, ih]
    | _ => simp [openedConns, ih]

theorem closedConns_append (t u : List Event) :
    closedConns (t ++ u) = closedConns t ++ closedConns u := by
  induction t with
  | nil => simp [closedConns]
  | cons ev t ih => cases ev <;> simp [closedConns, ih]

theorem stderrLines_append (t u : List Event) :
    stderrLines (t ++ u) = stderrLines t ++ stderrLines u := by
  induction t with
  | nil => simp [stderrLines]
  | cons ev t ih => cases ev <;> simp [stderrLines, ih]

theorem dialCount_append (t u : List Event) :
    dialCount (t ++ u) = dialCount t + dialCount u := by
  induction t with
  | nil => simp [dialCount]
  | cons ev t ih =>
    cases ev <;> simp [dialCount, ih]
    omega

/-! ## The handler is only touched through its queue and its context -/

theorem handleError_h {ε : Type} (s : Sys ε) (err : String) : (handleError s err).h = s.h := by
  unfold handleError; split_ifs <;> rfl

theorem andThen_eq {ε : Type} (s : Sys ε) (k : Sys ε → Sys ε) :
    (andThen s k = s ∧ ∃ msg, s.pc = .panicked msg) ∨
    (andThen s k = k s ∧ ∀ msg, s.pc ≠ .panicked msg) := by
  unfold andThen
  split
  · rename_i msg hpc
    exact Or.inl ⟨rfl, msg, hpc⟩
  · rename_i hpc
    exact Or.inr ⟨rfl, fun msg hm => hpc msg hm⟩

theorem gotoError_h {ε : Type} (s : Sys ε) : (gotoError s).h = s.h := by
  unfold gotoError
  rcases andThen_eq s (fun s1 => { s1 with pc := .retry }) with ⟨h1, _⟩ | ⟨h1, _⟩ <;> rw [h1]

theorem gotoDone_h {ε : Type} (s : Sys ε) (r : Resp) : (gotoDone s r).h = s.h := by
  unfold gotoDone
  split
  · rfl
  · split
    · rfl
    · rename_i c _ _ err _
      rcases andThen_eq (handleError { s with trace := s.trace ++ [.close c] } err)
        (fun s2 => { s2 with pc := .exited }) with ⟨h1, _⟩ | ⟨h1, _⟩ <;>
        simp only [h1, handleError_h]

theorem recvCase_h {ε : Type} (marshal : ε → Except String String) (s : Sys ε) (r : Resp)
    (e : ε) (rest : List ε) :
    (recvCase marshal s r e rest).h = s.h ∨
    (recvCase marshal s r e rest).h = { s.h with ch := rest } := by
  unfold recvCase
  split
  · exact Or.inl rfl
  · split
    · right; simp [gotoError_h, handleError_h]
    · split
      · right; simp [gotoError_h, handleError_h]
      · right; rfl

/-- A step of the loop leaves the handler alone or takes the oldest entry out
of the queue. -/
theorem connectionLoop_h {ε : Type} (marshal : ε → Except String String) (s : Sys ε) (r : Resp) :
    (connectionLoop marshal s r).h = s.h ∨
    ∃ e rest, s.h.ch = e :: rest ∧ (connectionLoop marshal s r).h = { s.h with ch := rest } := by
  rcases s with ⟨h, pc, conn, dialed, trace⟩
  cases pc with
  | dial =>
    cases hd : r.dialErr <;> simp [connectionLoop, hd, gotoError_h, handleError_h]
  | stream =>
    cases hch : h.ch with
    | nil => cases hctx : h.ctxDone <;> simp [connectionLoop, hch, hctx, gotoDone_h]
    | cons e rest =>
      have h1 := recvCase_h marshal ⟨h, .stream, conn, dialed, trace⟩ r e rest
      have h2 : (recvCase marshal ⟨h, .stream, conn, dialed, trace⟩ r e rest).h = h ∨
          ∃ e2 rest2, e :: rest = e2 :: rest2 ∧
            (recvCase marshal ⟨h, .stream, conn, dialed, trace⟩ r e rest).h
              = { h with ch := rest2 } := by
        rcases h1 with h1 | h1
        · exact Or.inl h1
        · exact Or.inr ⟨e, rest, rfl, h1⟩
      cases hctx : h.ctxDone
      · simpa [connectionLoop, hch, hctx] using h2
      · by_cases hp : r.pickDone = true
        · simp [connectionLoop, hch, hctx, hp, gotoDone_h]
        · simpa [connectionLoop, hch, hctx, hp] using h2
  | retry =>
    cases hctx : h.ctxDone
    · by_cases ht : r.timerFired = true <;> simp [connectionLoop, hctx, ht]
    · simp [connectionLoop, hctx, gotoDone_h]
  | exited => simp [connectionLoop]
  | panicked msg => simp [connectionLoop]

theorem HandleLog_chCap {ε : Type} (h : Handler ε) (e : ε) :
    (HandleLog h e).2.chCap = h.chCap ∧ (HandleLog h e).2.config = h.config ∧
    (HandleLog h e).2.ctxDone = h.ctxDone ∧ (HandleLog h e).2.pfx = h.pfx := by
  unfold HandleLog; split_ifs <;> simp

theorem act_chCap {ε : Type} (marshal : ε → Except String String) (s : Sys ε) (a : Action ε) :
    (act marshal s a).h.chCap = s.h.chCap ∧ (act marshal s a).h.config = s.h.config ∧
    (act marshal s a).h.pfx = s.h.pfx := by
  cases a with
  | close => simp [act, Close]
  | log e => simp [act, HandleLog_chCap]
  | loop r =>
    rcases connectionLoop_h marshal s r with h1 | ⟨_, rest, _, h1⟩ <;> simp [act, h1]

theorem run_chCap {ε : Type} (marshal : ε → Except String String) (script : List (Action ε))
    (s : Sys ε) :
    (run marshal s script).h.chCap = s.h.chCap ∧ (run marshal s script).h.config = s.h.config ∧
    (run marshal s script).h.pfx = s.h.pfx := by
  induction script generalizing s with
  | nil => simp [run]
  | cons a script ih =>
    have h1 := ih (act marshal s a)
    have h2 := act_chCap marshal s a
    simp only [run, List.foldl_cons] at h1 ⊢
    exact ⟨h1.1.trans h2.1, h1.2.1.trans h2.2.1, h1.2.2.trans h2.2.2⟩

/-- The occupancy of the queue never exceeds its capacity. -/
theorem run_queue_bounded {ε : Type} (marshal : ε → Except String String)
    (script : List (Action ε)) (s : Sys ε) (hwf : s.h.ch.length ≤ s.h.chCap) :
    (run marshal s script).h.ch.length ≤ (run marshal s script).h.chCap := by
  induction script generalizing s with
  | nil => simpa [run] using hwf
  | cons a script ih =>
    have h1 : (act marshal s a).h.ch.length ≤ (act marshal s a).h.chCap := by
      cases a with
      | close => simpa [act, Close] using hwf
      | log e =>
        simp only [act, HandleLog]
        split_ifs <;> simp <;> omega
      | loop r =>
        rcases connectionLoop_h marshal s r with h1 | ⟨e, rest, hch, h1⟩
        · simpa [act, h1] using hwf
        · simp only [act, h1]
          simp only [hch, List.length_cons] at hwf
          show rest.length ≤ s.h.chCap
          omega
    have h2 := ih (act marshal s a) h1
    simpa only [run, List.foldl_cons] using h2

/-! ## Dial attempts -/

theorem handleError_dial {ε : Type} (s : Sys ε) (err : String) :
    dialCount (handleError s err).trace = dialCount s.trace ∧
    ((handleError s err).pc = .dial → s.pc = .dial) := by
  unfold handleError
  split_ifs <;> simp [dialCount_append, dialCount]

theorem gotoError_dial {ε : Type} (s : Sys ε) :
    (gotoError s).trace = s.trace ∧ (gotoError s).pc ≠ .dial := by
  unfold gotoError
  rcases andThen_eq s (fun s1 => { s1 with pc := .retry }) with ⟨h1, msg, h2⟩ | ⟨h1, _⟩
  · rw [h1, h2]; simp
  · rw [h1]; simp

theorem gotoDone_dial {ε : Type} (s : Sys ε) (r : Resp) :
    dialCount (gotoDone s r).trace = dialCount s.trace ∧ (gotoDone s r).pc ≠ .dial := by
  unfold gotoDone
  split
  · simp
  · split
    · simp [dialCount_append, dialCount]
    · rename_i c _ _ err _
      rcases andThen_eq (handleError { s with trace := s.trace ++ [.close c] } err)
        (fun s2 => { s2 with pc := .exited }) with ⟨h1, msg, h2⟩ | ⟨h1, _⟩
      · simp only [h1, h2]
        simp [(handleError_dial _ err).1, dialCount_append, dialCount]
      · simp only [h1]
        simp [(handleError_dial _ err).1, dialCount_append, dialCount]

theorem recvCase_dial {ε : Type} (marshal : ε → Except String String) (s : Sys ε) (r : Resp)
    (e : ε) (rest : List ε) :
    dialCount (recvCase marshal s r e rest).trace = dialCount s.trace ∧
    ((recvCase marshal s r e rest).pc = .dial → s.pc = .dial) := by
  unfold recvCase
  split
  · simp
  · split
    · refine ⟨?_, fun hpc => absurd hpc (gotoError_dial _).2⟩
      rw [(gotoError_dial _).1, (handleError_dial _ _).1]
      simp [dialCount_append, dialCount]
    · split
      · refine ⟨?_, fun hpc => absurd hpc (gotoError_dial _).2⟩
        rw [(gotoError_dial _).1, (handleError_dial _ _).1]
        simp [dialCount_append, dialCount]
      · simp [dialCount_append, dialCount]

/-- Once the context is cancelled it stays cancelled, and the number of dial
attempts made so far plus the one the loop is about to make (if it stands
before the dial) never grows. -/
theorem act_dial_budget {ε : Type} (marshal : ε → Except String String) (s : Sys ε)
    (a : Action ε) (hdone : s.h.ctxDone = true) :
    (act marshal s a).h.ctxDone = true ∧
    dialCount (act marshal s a).trace + (if (act marshal s a).pc = .dial then 1 else 0)
      ≤ dialCount s.trace + (if s.pc = .dial then 1 else 0) := by
  cases a with
  | close => simp [act, Close]
  | log e => simp [act, HandleLog_chCap, hdone]
  | loop r =>
    constructor
    · rcases connectionLoop_h marshal s r with h1 | ⟨_, rest, _, h1⟩ <;> simp [act, h1, hdone]
    · simp only [act]
      rcases s with ⟨h, pc, conn, dialed, trace⟩
      simp only at hdone
      cases pc with
      | dial =>
        cases hd : r.dialErr with
        | none => simp [connectionLoop, hd, dialCount_append, dialCount]
        | some err =>
          have h1 := gotoError_dial (handleError
            ⟨h, .dial, none, dialed, trace ++ [.dial h.config.Address h.config.UseTLS none]⟩ err)
          simp only [connectionLoop, hd]
          rw [h1.1, (handleError_dial _ _).1]
          simp [h1.2, dialCount_append, dialCount]
      | stream =>
        have h1 := gotoDone_dial ⟨h, .stream, conn, dialed, trace⟩ r
        cases hch : h.ch with
        | nil => simp [connectionLoop, hch, hdone, h1.1, h1.2]
        | cons e rest =>
          have h2 := recvCase_dial marshal ⟨h, .stream, conn, dialed, trace⟩ r e rest
          have h3 : (recvCase marshal ⟨h, .stream, conn, dialed, trace⟩ r e rest).pc ≠ .dial :=
            fun hc => by simpa using h2.2 hc
          by_cases hp : r.pickDone = true
          · simp [connectionLoop, hch, hdone, hp, h1.1, h1.2]
          · simp [connectionLoop, hch, hdone, hp, h2.1, h3]
      | retry =>
        have h1 := gotoDone_dial ⟨h, .retry, conn, dialed, trace⟩ r
        simp [connectionLoop, hdone, h1.1, h1.2]
      | exited => simp [connectionLoop]
      | panicked msg => simp [connectionLoop]

/-! ## Closing transports -/

theorem handleError_closed {ε : Type} (s : Sys ε) (err : String) :
    closedConns (handleError s err).trace = closedConns s.trace := by
  unfold handleError
  split_ifs <;> simp [closedConns_append, closedConns]

theorem gotoDone_stops {ε : Type} (s : Sys ε) (r : Resp) :
    (gotoDone s r).pc.running = false := by
  unfold gotoDone
  split
  · rfl
  · split
    · rfl
    · rename_i c _ _ err _
      rcases andThen_eq (handleError { s with trace := s.trace ++ [.close c] } err)
        (fun s2 => { s2 with pc := .exited }) with ⟨h1, msg, h2⟩ | ⟨h1, _⟩
      · simp only [h1, h2]; rfl
      · simp only [h1]; rfl

theorem recvCase_closed {ε : Type} (marshal : ε → Except String String) (s : Sys ε) (r : Resp)
    (e : ε) (rest : List ε) :
    closedConns (recvCase marshal s r e rest).trace = closedConns s.trace := by
  unfold recvCase
  split
  · rfl
  · split
    · rw [(gotoError_dial _).1, handleError_closed]
      simp [closedConns_append, closedConns]
    · split
      · rw [(gotoError_dial _).1, handleError_closed]
        simp [closedConns_append, closedConns]
      · simp [closedConns_append, closedConns]

/-- The only `conn.Close()` of the loop is under the label `Done`: as long as
the loop has neither returned nor panicked, it has closed no transport, so
every transport it ever opened is still open. -/
theorem no_close_while_running {ε : Type} (marshal : ε → Except String String)
    (script : List (Action ε)) (s : Sys ε) (hinv : closedConns s.trace = [])
    (hrun : (run marshal s script).pc.running = true) :
    closedConns (run marshal s script).trace = [] ∧
    openConns (run marshal s script).trace = openedConns (run marshal s script).trace := by
  have key : closedConns (run marshal s script).trace = [] := by
    induction script generalizing s with
    | nil => simpa [run] using hinv
    | cons a script ih =>
      simp only [run, List.foldl_cons] at hrun ⊢
      by_cases hstop : (act marshal s a).pc.running = true
      · refine ih (act marshal s a) ?_ hrun
        cases a with
        | close => simpa [act] using hinv
        | log e => simpa [act] using hinv
        | loop r =>
          simp only [act] at hstop ⊢
          rcases s with ⟨h, pc, conn, dialed, trace⟩
          simp only at hinv
          cases pc with
          | dial =>
            cases hd : r.dialErr with
            | none => simp [connectionLoop, hd, closedConns_append, closedConns, hinv]
            | some err =>
              simp only [connectionLoop, hd]
              rw [(gotoError_dial _).1, handleError_closed]
              simp [closedConns_append, closedConns, hinv]
          | stream =>
            have hd := gotoDone_stops ⟨h, .stream, conn, dialed, trace⟩ r
            cases hch : h.ch with
            | nil =>
              cases hctx : h.ctxDone
              · simp [connectionLoop, hch, hctx, hinv]
              · simp [connectionLoop, hch, hctx, hd] at hstop
            | cons e rest =>
              have hc := recvCase_closed marshal ⟨h, .stream, conn, dialed, trace⟩ r e rest
              cases hctx : h.ctxDone
              · simp [connectionLoop, hch, hctx, hc, hinv]
              · by_cases hp : r.pickDone = true
                · simp [connectionLoop, hch, hctx, hp, hd] at hstop
                · simp [connectionLoop, hch, hctx, hp, hc, hinv]
          | retry =>
            have hd := gotoDone_stops ⟨h, .retry, conn, dialed, trace⟩ r
            cases hctx : h.ctxDone
            · by_cases ht : r.timerFired = true <;> simp [connectionLoop, hctx, ht, hinv]
            · simp [connectionLoop, hctx, hd] at hstop
          | exited => simp [connectionLoop, Pc.running] at hstop
          | panicked msg => simp [connectionLoop, Pc.running] at hstop
      · exfalso
        have hfix : ∀ (sc : List (Action ε)) (t : Sys ε), t.pc.running ≠ true →
            (List.foldl (act marshal) t sc).pc.running ≠ true := by
          intro sc
          induction sc with
          | nil => intro t ht; simpa using ht
          | cons b sc ih2 =>
            intro t ht
            simp only [List.foldl_cons]
            apply ih2
            cases b with
            | close => simpa [act] using ht
            | log e => simpa [act] using ht
            | loop r =>
              rcases t with ⟨h, pc, conn, dialed, trace⟩
              cases pc <;> simp_all [act, connectionLoop, Pc.running]
        exact hfix script _ hstop hrun
  exact ⟨key, by simp [openConns, key]⟩

/-! ## Streaming without failures -/

theorem wire_sendAll {ε : Type} (c k : Nat) (token : String) (js : ε → String) (es : List ε) :
    wire k (sendAll c (token ++ " ") js es) = if c = k then frames token js es else "" := by
  induction es with
  | nil => simp [sendAll, frames, wire]
  | cons e es ih =>
    by_cases hc : c = k
    · subst hc
      simp only [if_true] at ih
      simp [sendAll, frames, frame, sendEvents, wire, wire_append, ih, String.append_assoc]
    · simp [sendAll, sendEvents, wire, wire_append, ih, hc]

theorem dialCount_sendAll {ε : Type} (c : Nat) (pfx : String) (js : ε → String) (es : List ε) :
    dialCount (sendAll c pfx js es) = 0 := by
  induction es with
  | nil => simp [sendAll, dialCount]
  | cons e es ih => simp [sendAll, sendEvents, dialCount, dialCount_append, ih]

/-- With a transport in hand, no shutdown and no failure, the loop sends the
queued records in order and then blocks on the empty queue. -/
theorem stream_drains {ε : Type} (marshal : ε → Except String String) (js : ε → String)
    (c : Nat) (resps : List Resp) (s : Sys ε)
    (hpc : s.pc = .stream) (hconn : s.conn = some c) (hctx : s.h.ctxDone = false)
    (hjs : ∀ e ∈ s.h.ch, marshal e = .ok (js e))
    (hok : ∀ r ∈ resps, r.pfxWriteOk = true ∧ r.encWriteErr = none)
    (hlen : s.h.ch.length ≤ resps.length) :
    run marshal s (resps.map .loop) =
      { s with h := { s.h with ch := [] },
               trace := s.trace ++ sendAll c s.h.pfx js s.h.ch } := by
  induction resps generalizing s with
  | nil =>
    rcases s with ⟨⟨config, pfx, ch, chCap, ctxDone⟩, pc, conn, dialed, trace⟩
    simp only [List.length_nil, Nat.le_zero, List.length_eq_zero] at hlen
    subst hlen
    simp [run, sendAll]
  | cons r resps ih =>
    rcases s with ⟨⟨config, pfx, ch, chCap, ctxDone⟩, pc, conn, dialed, trace⟩
    simp only at hpc hconn hctx hjs hlen
    subst hpc hconn hctx
    have hr := hok r (List.mem_cons_self _ _)
    have hok2 : ∀ r2 ∈ resps, r2.pfxWriteOk = true ∧ r2.encWriteErr = none :=
      fun r2 h2 => hok r2 (List.mem_cons_of_mem _ h2)
    cases ch with
    | nil =>
      have h1 := ih ⟨⟨config, pfx, [], chCap, false⟩, .stream, some c, dialed, trace⟩
        rfl rfl rfl (by simp) hok2 (by simp)
      simpa [run, act, connectionLoop] using h1
    | cons e rest =>
      have he : marshal e = .ok (js e) := hjs e (List.mem_cons_self _ _)
      have h1 := ih ⟨⟨config, pfx, rest, chCap, false⟩, .stream, some c, dialed,
          trace ++ [.setWriteDeadline c, .write c pfx true] ++ [.write c (js e ++ "\n") true]⟩
        rfl rfl rfl (fun e2 h2 => hjs e2 (List.mem_cons_of_mem _ h2)) hok2
        (by simp only [List.length_cons] at hlen ⊢; omega)
      simp only [run, List.map_cons, List.foldl_cons] at h1 ⊢
      simp only [act, connectionLoop, recvCase, he, hr.1, hr.2, Option.isNone_none]
      rw [h1]
      simp [sendAll, sendEvents]

/-! ## Runs without shutdown and without failure -/

theorem frames_append {ε : Type} (token : String) (js : ε → String) (xs ys : List ε) :
    frames token js (xs ++ ys) = frames token js xs ++ frames token js ys := by
  induction xs with
  | nil => simp [frames]
  | cons x xs ih => simp [frames, ih, String.append_assoc]

theorem Resp.quiet_iff (r : Resp) :
    r.quiet = true ↔ r.dialErr = none ∧ r.pfxWriteOk = true ∧ r.encWriteErr = none := by
  simp [Resp.quiet, Option.isNone_iff_eq_none, and_assoc]

theorem run_append {ε : Type} (marshal : ε → Except String String) (s : Sys ε)
    (xs ys : List (Action ε)) :
    run marshal s (xs ++ ys) = run marshal (run marshal s xs) ys := by
  simp [run, List.foldl_append]

/-- As long as the submissions still to come fit into the queue, every one of
them is accepted. -/
theorem accepted_eq_logged {ε : Type} (marshal : ε → Except String String)
    (script : List (Action ε)) (s : Sys ε)
    (hroom : s.h.ch.length + (logged script).length ≤ s.h.chCap) :
    accepted marshal s script = logged script := by
  induction script generalizing s with
  | nil => simp [accepted, logged]
  | cons a script ih =>
    cases a with
    | close =>
      simp only [accepted, logged] at hroom ⊢
      exact ih _ (by simpa [act, Close] using hroom)
    | log e =>
      simp only [logged, List.length_cons] at hroom
      have h1 : s.h.ch.length < s.h.chCap := by omega
      have h2 : (HandleLog s.h e).1 = .ret none := by simp [HandleLog, h1]
      simp only [accepted, logged, h2, if_true]
      rw [ih]
      simp only [act, HandleLog, h1, if_true, List.length_append, List.length_cons,
        List.length_nil]
      omega
    | loop r =>
      simp only [accepted, logged] at hroom ⊢
      refine ih _ ?_
      rcases connectionLoop_h marshal s r with h1 | ⟨e, rest, hch, h1⟩
      · simpa [act, h1] using hroom
      · simp only [act, h1]
        simp only [hch, List.length_cons] at hroom
        show rest.length + (logged script).length ≤ s.h.chCap
        omega

/-- One action of a run without shutdown and without failure keeps the state
flowing, and the bytes on transport 0 followed by the frames of the queue grow
by the frame of the entry the action got accepted, if any. -/
theorem quiet_act {ε : Type} (marshal : ε → Except String String) (js : ε → String)
    (token : String) (s : Sys ε) (a : Action ε)
    (hflow : Flowing marshal js token s) (ha : a.quiet = true)
    (hjs : ∀ e ∈ accepted marshal s [a], marshal e = .ok (js e)) :
    Flowing marshal js token (act marshal s a) ∧
    wire 0 (act marshal s a).trace ++ frames token js (act marshal s a).h.ch
      = wire 0 s.trace ++ frames token js s.h.ch
          ++ frames token js (accepted marshal s [a]) := by
  obtain ⟨hctx, hpfx, hq, hpc⟩ := hflow
  rcases s with ⟨⟨config, pfx, ch, chCap, ctxDone⟩, pc, conn, dialed, trace⟩
  simp only at hctx hpfx hq hpc
  subst hctx hpfx
  cases a with
  | close => simp [Action.quiet] at ha
  | log e =>
    by_cases hroom : ch.length < chCap
    · have he : marshal e = .ok (js e) := by
        apply hjs
        simp [accepted, HandleLog, hroom]
      refine ⟨⟨?_, ?_, ?_, ?_⟩, ?_⟩
      · simp [act, HandleLog, hroom]
      · simp [act, HandleLog, hroom]
      · intro e2 h2
        simp only [act, HandleLog, hroom, if_true, List.mem_append, List.mem_singleton] at h2
        rcases h2 with h2 | h2
        · exact hq e2 h2
        · rw [h2]; exact he
      · simpa [act] using hpc
      · simp [act, accepted, HandleLog, hroom, frames_append, String.append_assoc]
    · refine ⟨⟨?_, ?_, ?_, ?_⟩, ?_⟩
      · simp only [act, HandleLog, hroom, if_false]; split_ifs <;> rfl
      · simp only [act, HandleLog, hroom, if_false]; split_ifs <;> rfl
      · intro e2 h2
        apply hq
        simp only [act, HandleLog, hroom, if_false] at h2
        split_ifs at h2 <;> exact h2
      · simpa [act] using hpc
      · cases hd : config.Discard <;> simp [act, accepted, HandleLog, hroom, hd, frames]
  | loop r =>
    have hr := (Resp.quiet_iff r).1 (by simpa [Action.quiet] using ha)
    rcases hpc with ⟨hpc, hdialed, htrace⟩ | ⟨hpc, hconn, hdial, hother⟩
    · subst hpc hdialed htrace
      refine ⟨⟨?_, ?_, ?_, Or.inr ⟨?_, ?_, ?_, ?_⟩⟩, ?_⟩
      · simp [act, connectionLoop, hr.1]
      · simp [act, connectionLoop, hr.1]
      · simpa [act, connectionLoop, hr.1] using hq
      · simp [act, connectionLoop, hr.1]
      · simp [act, connectionLoop, hr.1]
      · simp [act, connectionLoop, hr.1, dialCount]
      · intro k _
        simp [act, connectionLoop, hr.1, wire]
      · simp [act, connectionLoop, hr.1, accepted, frames, wire]
    · subst hpc hconn
      cases ch with
      | nil =>
        refine ⟨⟨?_, ?_, ?_, Or.inr ⟨?_, ?_, ?_, ?_⟩⟩, ?_⟩
        · simp [act, connectionLoop]
        · simp [act, connectionLoop]
        · simp [act, connectionLoop]
        · simp [act, connectionLoop]
        · simp [act, connectionLoop]
        · simpa [act, connectionLoop] using hdial
        · simpa [act, connectionLoop] using hother
        · simp [act, connectionLoop, accepted, frames]
      | cons e rest =>
        have he : marshal e = .ok (js e) := hq e (List.mem_cons_self _ _)
        refine ⟨⟨?_, ?_, ?_, Or.inr ⟨?_, ?_, ?_, ?_⟩⟩, ?_⟩
        · simp [act, connectionLoop, recvCase, he, hr.2.1, hr.2.2]
        · simp [act, connectionLoop, recvCase, he, hr.2.1, hr.2.2]
        · intro e2 h2
          apply hq
          simp only [act, connectionLoop, recvCase, he, hr.2.1, hr.2.2] at h2
          exact List.mem_cons_of_mem _ h2
        · simp [act, connectionLoop, recvCase, he, hr.2.1, hr.2.2]
        · simp [act, connectionLoop, recvCase, he, hr.2.1, hr.2.2]
        · simpa [act, connectionLoop, recvCase, he, hr.2.1, hr.2.2, dialCount_append,
            dialCount] using hdial
        · intro k hk
          have hk2 : ¬ (0 = k) := fun h0 => hk h0.symm
          simp [act, connectionLoop, recvCase, he, hr.2.1, hr.2.2, wire_append, wire, hk2,
            hother k hk]
        · simp [act, connectionLoop, recvCase, he, hr.2.1, hr.2.2, wire_append, wire,
            accepted, frames, frame, String.append_assoc]

theorem accepted_cons {ε : Type} (marshal : ε → Except String String) (s : Sys ε)
    (a : Action ε) (script : List (Action ε)) :
    accepted marshal s (a :: script)
      = accepted marshal s [a] ++ accepted marshal (act marshal s a) script := by
  cases a with
  | close => simp [accepted]
  | log e => by_cases h1 : (HandleLog s.h e).1 = .ret none <;> simp [accepted, h1]
  | loop r => simp [accepted]

theorem accepted_append {ε : Type} (marshal : ε → Except String String)
    (xs ys : List (Action ε)) (s : Sys ε) :
    accepted marshal s (xs ++ ys)
      = accepted marshal s xs ++ accepted marshal (run marshal s xs) ys := by
  induction xs generalizing s with
  | nil => simp [accepted, run]
  | cons a xs ih =>
    rw [List.cons_append, accepted_cons, ih, accepted_cons marshal s a xs]
    simp [run, List.append_assoc]

theorem accepted_loops {ε : Type} (marshal : ε → Except String String) (more : List Resp)
    (s : Sys ε) : accepted marshal s (more.map .loop) = [] := by
  induction more generalizing s with
  | nil => simp [accepted]
  | cons r more ih => simp [accepted, ih]

/-- In every run without shutdown and without failure the state keeps flowing,
and the bytes on transport 0 followed by the frames of the queued entries are
what they were at the start followed by the frames of the accepted entries. -/
theorem quiet_run {ε : Type} (marshal : ε → Except String String) (js : ε → String)
    (token : String) (script : List (Action ε)) (s : Sys ε)
    (hflow : Flowing marshal js token s) (hquiet : script.all Action.quiet = true)
    (hjs : ∀ e ∈ accepted marshal s script, marshal e = .ok (js e)) :
    Flowing marshal js token (run marshal s script) ∧
    wire 0 (run marshal s script).trace ++ frames token js (run marshal s script).h.ch
      = wire 0 s.trace ++ frames token js s.h.ch
          ++ frames token js (accepted marshal s script) := by
  induction script generalizing s with
  | nil => simp [run, accepted, frames, hflow]
  | cons a script ih =>
    rw [List.all_cons, Bool.and_eq_true] at hquiet
    rw [accepted_cons] at hjs
    have h1 := quiet_act marshal js token s a hflow hquiet.1
      (fun e he => hjs e (List.mem_append_left _ he))
    have h2 := ih (act marshal s a) h1.1 hquiet.2
      (fun e he => hjs e (List.mem_append_right _ he))
    simp only [run, List.foldl_cons] at h2 ⊢
    refine ⟨h2.1, ?_⟩
    rw [h2.2, h1.2, accepted_cons marshal s a script, frames_append, String.append_assoc]

/-- From a flowing state, one loop step for a dial still to make and one per
queued entry, none of them failing, empty the queue and leave the loop in the
streaming select. -/
theorem quiet_drain {ε : Type} (marshal : ε → Except String String) (js : ε → String)
    (token : String) (more : List Resp) (s : Sys ε)
    (hflow : Flowing marshal js token s) (hmore : more.all Resp.quiet = true)
    (hlen : s.h.ch.length + 1 ≤ more.length) :
    (run marshal s (more.map .loop)).h.ch = [] ∧
    (run marshal s (more.map .loop)).pc = .stream := by
  obtain ⟨hctx, hpfx, hq, hpc⟩ := hflow
  have hall : ∀ r ∈ more, r.pfxWriteOk = true ∧ r.encWriteErr = none := by
    intro r hr
    have h1 := (Resp.quiet_iff r).1 (List.all_eq_true.1 hmore r hr)
    exact h1.2
  rcases hpc with ⟨hpc, _, _⟩ | ⟨hpc, hconn, _, _⟩
  · cases more with
    | nil => simp at hlen
    | cons r0 more =>
      have hr0 := (Resp.quiet_iff r0).1 (List.all_eq_true.1 hmore r0 (List.mem_cons_self _ _))
      have h1 := stream_drains marshal js s.dialed more
        { s with conn := some s.dialed, dialed := s.dialed + 1, pc := .stream,
                 trace := s.trace ++ [.dial s.h.config.Address s.h.config.UseTLS (some s.dialed)] }
        rfl rfl hctx hq (fun r hr => hall r (List.mem_cons_of_mem _ hr))
        (by
          simp only [List.length_cons] at hlen
          show s.h.ch.length ≤ more.length
          omega)
      have h2 : act marshal s (.loop r0)
          = { s with conn := some s.dialed, dialed := s.dialed + 1, pc := .stream,
                     trace := s.trace
                       ++ [.dial s.h.config.Address s.h.config.UseTLS (some s.dialed)] } := by
        simp [act, connectionLoop, hpc, hr0.1]
      simp only [run, List.map_cons, List.foldl_cons, h2] at h1 ⊢
      rw [h1]
      exact ⟨rfl, rfl⟩
  · have h1 := stream_drains marshal js 0 more s hpc hconn hctx hq hall (by omega)
    rw [h1]
    exact ⟨rfl, hpc⟩

/-- The state `New` returns: an empty queue, a live context, the prefix
`Token` and a space, and the loop before its first dial. -/
theorem New_shape {ε : Type} (maxChanLen : Nat) (c : Config) (s0 : Sys ε)
    (hnew : New maxChanLen c = .ret s0) :
    s0.h.ch = [] ∧ s0.h.ctxDone = false ∧ s0.h.pfx = c.Token ++ " " ∧
    s0.pc = .dial ∧ s0.conn = none ∧ s0.dialed = 0 ∧ s0.trace = [] := by
  unfold New at hnew
  simp only at hnew
  split_ifs at hnew <;>
    (injection hnew with hnew; subst hnew; simp)

/-- A `QueueLen` that is negative or over the limit of the runtime makes `make`
panic: `New` returns no handler. -/
theorem New_size_out_of_range {ε : Type} (maxChanLen : Nat) (c : Config)
    (hz : c.QueueLen ≠ 0) (hq : c.QueueLen < 0 ∨ (maxChanLen : Int) < c.QueueLen) :
    (New maxChanLen c : Outcome (Sys ε)) = .panic makechanPanic := by
  by_cases ha : c.Address = "" <;> simp [New, ha, hz, hq]

/-! ## The ingestion queue: `HandleLog` -/

/-- Claim C1: when the queue holds fewer entries than its capacity, `HandleLog`
returns the nil error (it is a total function: no panic, no blocking) and the
queue afterwards is the previous queue followed by the new entry; nothing else
in the handler changes. -/
theorem HandleLog_enqueues {ε : Type} (h : Handler ε) (e : ε)
    (hroom : h.ch.length < h.chCap) :
    HandleLog h e = (.ret none, { h with ch := h.ch ++ [e] }) := by
  simp [HandleLog, hroom]

theorem HandleLog_enqueues_witness :
    (sampleHandler ["r1"] false).ch.length < (sampleHandler ["r1"] false).chCap ∧
    HandleLog (sampleHandler ["r1"] false) "r2"
      = (.ret none, { sampleHandler ["r1"] false with
                        ch := (sampleHandler ["r1"] false).ch ++ ["r2"] }) :=
  ⟨by decide, HandleLog_enqueues (sampleHandler ["r1"] false) "r2" (by decide)⟩

/-- Claim C2: with `Discard` set and a full queue, `HandleLog` returns the error
"queue full" (it does not panic) and leaves the handler, hence the queue, as it
was. -/
theorem HandleLog_discards_when_full {ε : Type} (h : Handler ε) (e : ε)
    (hdiscard : h.config.Discard = true) (hfull : h.ch.length = h.chCap) :
    HandleLog h e = (.ret (some "queue full"), h) := by
  simp [HandleLog, hfull, hdiscard]

theorem HandleLog_discards_when_full_witness :
    (sampleHandler ["r1", "r2"] true).config.Discard = true ∧
    (sampleHandler ["r1", "r2"] true).ch.length = (sampleHandler ["r1", "r2"] true).chCap ∧
    HandleLog (sampleHandler ["r1", "r2"] true) "r3"
      = (.ret (some "queue full"), sampleHandler ["r1", "r2"] true) :=
  ⟨by decide, by decide,
    HandleLog_discards_when_full (sampleHandler ["r1", "r2"] true) "r3" (by decide) (by decide)⟩

/-- Claim C3: with `Discard` unset, `HandleLog` panics if and only if the queue
is full; when it is full the single outcome of the call is the panic (no error
value is returned) and the handler, hence the queue, is unchanged. -/
theorem HandleLog_panics_iff_full {ε : Type} (h : Handler ε) (e : ε)
    (hdiscard : h.config.Discard = false) (hwf : h.ch.length ≤ h.chCap) :
    ((∃ msg, (HandleLog h e).1 = .panic msg) ↔ h.ch.length = h.chCap) ∧
    (h.ch.length = h.chCap →
      HandleLog h e = (.panic "apex-logentries: queue full", h)) := by
  constructor
  · constructor
    · rintro ⟨msg, hmsg⟩
      by_cases hroom : h.ch.length < h.chCap
      · simp [HandleLog, hroom] at hmsg
      · omega
    · intro hfull
      exact ⟨"apex-logentries: queue full", by simp [HandleLog, hfull, hdiscard]⟩
  · intro hfull
    simp [HandleLog, hfull, hdiscard]

theorem HandleLog_panics_iff_full_witness :
    ((∃ msg, (HandleLog (sampleHandler ["r1", "r2"] false) "r3").1 = .panic msg) ↔
      (sampleHandler ["r1", "r2"] false).ch.length = (sampleHandler ["r1", "r2"] false).chCap) ∧
    ((sampleHandler ["r1", "r2"] false).ch.length = (sampleHandler ["r1", "r2"] false).chCap →
      HandleLog (sampleHandler ["r1", "r2"] false) "r3"
        = (.panic "apex-logentries: queue full", sampleHandler ["r1", "r2"] false)) :=
  HandleLog_panics_iff_full (sampleHandler ["r1", "r2"] false) "r3" (by decide) (by decide)

/-- Claim C8, on the code: after `New` and `Close`, `HandleLog` on a handler
whose queue has room returns the nil error and enqueues the entry; it does not
panic, although the comment of `Close` says that logging then panics. -/
theorem HandleLog_after_Close_returns_nil :
    ∃ s : Sys String, New maxChanLen64 sampleConfig = .ret s ∧
      (Close s.h).ctxDone = true ∧
      HandleLog (Close s.h) "r1" = (.ret none, { Close s.h with ch := ["r1"] }) :=
  ⟨_, rfl, rfl, by decide⟩

/-! ## The error policy: `handleError` -/

/-- Claim C6: the effect of `handleError` depends on the configured mode only.
With `PanicOnError` the goroutine panics with the error and nothing is written;
with `LogOnError` exactly one line, "apex-logentries: " followed by the error
and a newline, is appended to stderr and the loop goes on from where it was;
with `IgnoreErrors` the state is unchanged. In every mode the handler (queue,
capacity, shutdown signal), the loop variable `conn`, the transports and the
bytes on them are what they were. -/
theorem handleError_by_mode {ε : Type} (s : Sys ε) (err : String) :
    (s.h.config.ErrorHandling = PanicOnError →
      handleError s err = { s with pc := .panicked err }) ∧
    (s.h.config.ErrorHandling = LogOnError →
      handleError s err
        = { s with trace := s.trace ++ [.stderr ("apex-logentries: " ++ err ++ "\n")] } ∧
      stderrLines (handleError s err).trace
        = stderrLines s.trace ++ ["apex-logentries: " ++ err ++ "\n"]) ∧
    (s.h.config.ErrorHandling = IgnoreErrors → handleError s err = s) ∧
    (handleError s err).h = s.h ∧ (handleError s err).conn = s.conn ∧
    (handleError s err).dialed = s.dialed ∧
    openedConns (handleError s err).trace = openedConns s.trace ∧
    closedConns (handleError s err).trace = closedConns s.trace ∧
    ∀ c, wire c (handleError s err).trace = wire c s.trace := by
  refine ⟨?_, ?_, ?_, ?_, ?_, ?_, ?_, ?_, ?_⟩
  · intro hm
    simp [handleError, hm]
  · intro hm
    have hne : ¬ (LogOnError = PanicOnError) := by decide
    simp [handleError, hm, hne, stderrLines_append, stderrLines]
  · intro hm
    have hne : ¬ (IgnoreErrors = PanicOnError) := by decide
    have hne2 : ¬ (IgnoreErrors = LogOnError) := by decide
    simp [handleError, hm, hne, hne2]
  · unfold handleError; split_ifs <;> rfl
  · unfold handleError; split_ifs <;> rfl
  · unfold handleError; split_ifs <;> rfl
  · unfold handleError; split_ifs <;> simp [openedConns_append, openedConns]
  · unfold handleError; split_ifs <;> simp [closedConns_append, closedConns]
  · intro c
    unfold handleError; split_ifs <;> simp [wire_append, wire]

theorem handleError_by_mode_witness :
    stderrLines
        (handleError (⟨sampleHandler [] false, .retry, none, 0, []⟩ : Sys String)
          "dial tcp: i/o timeout").trace
      = stderrLines ([] : List Event) ++ ["apex-logentries: " ++ "dial tcp: i/o timeout" ++ "\n"] :=
  ((handleError_by_mode (⟨sampleHandler [] false, .retry, none, 0, []⟩ : Sys String)
    "dial tcp: i/o timeout").2.1 rfl).2

/-! ## The constructor: `New` -/

/-- Claim C7 as stated fails: it speaks of every configuration, but for the
positive `QueueLen` 2^62 the call of `make` panics (the size is over what the
runtime allocates) and `New` returns no handler, of capacity 2^62 or any
other; for a negative `QueueLen` it panics as well, also when `Address` is
set. -/
theorem New_panics_on_size_out_of_range :
    (0 : Int) < ({ sampleConfig with QueueLen := 2 ^ 62 } : Config).QueueLen ∧
    (New maxChanLen64 { sampleConfig with QueueLen := 2 ^ 62 } : Outcome (Sys String))
      = .panic makechanPanic ∧
    (New maxChanLen64 { sampleConfig with Address := "localhost:10000", QueueLen := -1 } :
      Outcome (Sys String)) = .panic makechanPanic :=
  ⟨by decide, by decide, by decide⟩

/-- Claim C7, amended: for a configuration whose `QueueLen` is neither negative
nor over the largest channel size the runtime allocates (a limit of at least
1024, the default), `New` returns a handler whose `Address` is the configured
one when that is not empty and otherwise the default for the TLS setting
("data.logentries.com:443" with TLS, "data.logentries.com:80" without), whose
queue capacity is `QueueLen` when that is positive and 1024 when it is 0, and
whose `Token`, `UseTLS`, `TLSConfig`, `Discard` and `ErrorHandling` are the
configured ones; the queue starts empty, and no run of submissions, shutdowns
and loop steps changes the capacity. -/
theorem New_applies_defaults {ε : Type} (maxChanLen : Nat) (c : Config)
    (hq : 0 ≤ c.QueueLen) (hmax : c.QueueLen ≤ maxChanLen) (hdef : 1024 ≤ maxChanLen) :
    ∃ s : Sys ε, New maxChanLen c = .ret s ∧
      (c.Address ≠ "" → s.h.config.Address = c.Address) ∧
      (c.Address = "" → c.UseTLS = true → s.h.config.Address = "data.logentries.com:443") ∧
      (c.Address = "" → c.UseTLS = false → s.h.config.Address = "data.logentries.com:80") ∧
      (0 < c.QueueLen → (s.h.chCap : Int) = c.QueueLen) ∧
      (c.QueueLen = 0 → s.h.chCap = 1024) ∧
      s.h.config.Token = c.Token ∧ s.h.config.UseTLS = c.UseTLS ∧
      s.h.config.TLSConfig = c.TLSConfig ∧ s.h.config.Discard = c.Discard ∧
      s.h.config.ErrorHandling = c.ErrorHandling ∧
      s.h.ch = [] ∧
      ∀ (marshal : ε → Except String String) (script : List (Action ε)),
        (run marshal s script).h.chCap = s.h.chCap := by
  have hnn : ¬ (c.QueueLen < 0) := by omega
  have hfit : ¬ ((maxChanLen : Int) < c.QueueLen) := by omega
  have hfit2 : ¬ ((maxChanLen : Int) < 1024) := by omega
  by_cases ha : c.Address = "" <;> by_cases hz : c.QueueLen = 0
  all_goals
    refine ⟨_, by simp [New, ha, hz, hnn, hfit, hfit2, defaultQueueLen]; rfl, ?_⟩
    refine ⟨?_, ?_, ?_, ?_, ?_, ?_, ?_, ?_, ?_, ?_, ?_, ?_⟩ <;>
      first
        | (intro m sc; exact (run_chCap m sc _).1)
        | (cases hu : c.UseTLS <;> simp [ha, hz, hu, defaultAddress, defaultQueueLen] <;> omega)

theorem New_applies_defaults_witness :
    0 ≤ sampleConfig.QueueLen ∧ sampleConfig.QueueLen ≤ maxChanLen64 ∧ 1024 ≤ maxChanLen64 ∧
    ∃ s : Sys String, New maxChanLen64 sampleConfig = .ret s ∧
      s.h.config.Address = "data.logentries.com:443" ∧ s.h.chCap = 1024 ∧
      s.h.config.Token = sampleConfig.Token :=
  ⟨by decide, by decide, by decide, by
    obtain ⟨s, hs, _, h443, _, _, hcap, htok, _⟩ :=
      @New_applies_defaults String maxChanLen64 sampleConfig (by decide) (by decide) (by decide)
    exact ⟨s, hs, h443 rfl rfl, hcap rfl, htok⟩⟩

/-! ## Wire format and order of transmission -/

/-! ## Wire format and order of transmission -/

/-- Claim C4: let `New` return a handler and take any run of it without
shutdown in which no dial, write or marshalling fails: submissions through
`HandleLog` and steps of the connection loop, interleaved in any order. If at
most as many records are submitted as the queue has capacity, `HandleLog`
accepts every one of them. At every point of the run the bytes on the
transport, followed by the frames of the records still queued, are the frames
of the accepted records in submission order, a frame being the token, a space,
the JSON text of the record and a newline; nothing is written to another
transport. Once the loop has taken one further step for a dial still to make
and one per queued record, the bytes on the transport are exactly the
concatenation of the frames of the accepted records in submission order, one
dial was made, the queue is empty and the loop waits in the streaming
select. -/
theorem connectionLoop_transmits_in_order {ε : Type} (maxChanLen : Nat)
    (marshal : ε → Except String String) (js : ε → String) (c : Config) (s0 : Sys ε)
    (script : List (Action ε)) (more : List Resp)
    (hnew : New maxChanLen c = .ret s0)
    (hquiet : script.all Action.quiet = true)
    (hjs : ∀ e ∈ accepted marshal s0 script, marshal e = .ok (js e))
    (hmore : more.all Resp.quiet = true)
    (hlen : (run marshal s0 script).h.ch.length + 1 ≤ more.length) :
    ((logged script).length ≤ s0.h.chCap → accepted marshal s0 script = logged script) ∧
    wire 0 (run marshal s0 script).trace ++ frames c.Token js (run marshal s0 script).h.ch
      = frames c.Token js (accepted marshal s0 script) ∧
    (∀ k, k ≠ 0 → wire k (run marshal s0 script).trace = "") ∧
    wire 0 (run marshal s0 (script ++ more.map .loop)).trace
      = frames c.Token js (accepted marshal s0 script) ∧
    (∀ k, k ≠ 0 → wire k (run marshal s0 (script ++ more.map .loop)).trace = "") ∧
    dialCount (run marshal s0 (script ++ more.map .loop)).trace = 1 ∧
    (run marshal s0 (script ++ more.map .loop)).pc = .stream ∧
    (run marshal s0 (script ++ more.map .loop)).h.ch = [] := by
  obtain ⟨hch, hctx, hpfx, hpc, hconn, hdialed, htrace⟩ := New_shape maxChanLen c s0 hnew
  have hflow : Flowing marshal js c.Token s0 :=
    ⟨hctx, hpfx, by simp [hch], Or.inl ⟨hpc, hdialed, htrace⟩⟩
  have hother : ∀ s : Sys ε, Flowing marshal js c.Token s → ∀ k, k ≠ 0 → wire k s.trace = "" := by
    intro s hs k hk
    rcases hs.2.2.2 with ⟨_, _, ht⟩ | ⟨_, _, _, ho⟩
    · simp [ht, wire]
    · exact ho k hk
  have hstart : wire 0 s0.trace ++ frames c.Token js s0.h.ch = "" := by
    simp [htrace, hch, wire, frames]
  have h1 := quiet_run marshal js c.Token script s0 hflow hquiet hjs
  have hdrain := quiet_drain marshal js c.Token more (run marshal s0 script) h1.1 hmore hlen
  have hquiet2 : (script ++ more.map Action.loop).all Action.quiet = true := by
    rw [List.all_append, hquiet, Bool.true_and, List.all_eq_true]
    intro a ha
    obtain ⟨r, hr, rfl⟩ := List.mem_map.1 ha
    exact List.all_eq_true.1 hmore r hr
  have hacc : accepted marshal s0 (script ++ more.map Action.loop)
      = accepted marshal s0 script := by
    rw [accepted_append, accepted_loops, List.append_nil]
  have h2 := quiet_run marshal js c.Token (script ++ more.map Action.loop) s0 hflow hquiet2
    (by rw [hacc]; exact hjs)
  rw [← run_append] at hdrain
  refine ⟨?_, ?_, hother _ h1.1, ?_, hother _ h2.1, ?_, hdrain.2, hdrain.1⟩
  · intro hn
    exact accepted_eq_logged marshal script s0 (by rw [hch]; simpa using hn)
  · rw [h1.2, hstart, String.empty_append]
  · have h3 := h2.2
    rw [hdrain.1, hstart, String.empty_append, hacc] at h3
    simpa [frames] using h3
  · rcases h2.1.2.2.2 with ⟨hd, _, _⟩ | ⟨_, _, hd, _⟩
    · rw [hdrain.2] at hd
      cases hd
    · exact hd

theorem connectionLoop_transmits_in_order_witness :
    wire 0 (run sampleMarshal
        (⟨⟨{ sampleConfig with Address := "data.logentries.com:443", QueueLen := 1024 },
            "abc ", [], 1024, false⟩, .dial, none, 0, []⟩ : Sys String)
        ([.loop okResp, .loop okResp, .log "\x7b\"msg\":\"hello\"\x7d"]
          ++ [okResp, okResp].map Action.loop)).trace
      = "abc \x7b\"msg\":\"hello\"\x7d\n" :=
  (connectionLoop_transmits_in_order maxChanLen64 sampleMarshal id sampleConfig
    ⟨⟨{ sampleConfig with Address := "data.logentries.com:443", QueueLen := 1024 },
        "abc ", [], 1024, false⟩, .dial, none, 0, []⟩
    [.loop okResp, .loop okResp, .log "\x7b\"msg\":\"hello\"\x7d"] [okResp, okResp]
    rfl (by decide)
    (by
      intro e he
      have hacc : accepted sampleMarshal
          (⟨⟨{ sampleConfig with Address := "data.logentries.com:443", QueueLen := 1024 },
              "abc ", [], 1024, false⟩, .dial, none, 0, []⟩ : Sys String)
          [.loop okResp, .loop okResp, .log "\x7b\"msg\":\"hello\"\x7d"]
          = ["\x7b\"msg\":\"hello\"\x7d"] := by decide
      rw [hacc, List.mem_singleton] at he
      subst he
      rfl)
    (by decide) (by decide)).2.2.2.1.trans (by decide)

/-! ## Shutdown and dialing -/

/-- Claim C5 as stated fails: `Close` is signaled before the first step of the
loop, and the loop still makes its first dial attempt, which opens transport 0. -/
theorem dial_after_Close_before_first_dial :
    ∃ s : Sys String, New maxChanLen64 sampleConfig = .ret s ∧
      (act sampleMarshal s .close).h.ctxDone = true ∧
      dialCount (act sampleMarshal s .close).trace = 0 ∧
      dialCount (run sampleMarshal s [.close, .loop okResp]).trace = 1 ∧
      openConns (run sampleMarshal s [.close, .loop okResp]).trace = [0] :=
  ⟨_, rfl, by decide, by decide, by decide, by decide⟩

/-- Claim C5, amended: once `Close` has been signaled, every run of the system
(loop steps, further submissions and further calls of `Close`, in any order and
with any answers of the outside world) adds no dial attempt when the signal
finds the loop anywhere but before a dial (in the streaming select, in the
retry wait, or finished), and adds at most one, the pending one, when the loop
stands before a dial. -/
theorem dials_after_Close {ε : Type} (marshal : ε → Except String String)
    (script : List (Action ε)) (s : Sys ε) (hdone : s.h.ctxDone = true) :
    dialCount (run marshal s script).trace
      ≤ dialCount s.trace + (if s.pc = .dial then 1 else 0) := by
  induction script generalizing s with
  | nil => simp [run]
  | cons a script ih =>
    have h1 := act_dial_budget marshal s a hdone
    have h2 := ih (act marshal s a) h1.1
    simp only [run, List.foldl_cons] at h2 ⊢
    exact le_trans h2 h1.2

theorem dials_after_Close_witness :
    (Close (sampleHandler ["bad"] false)).ctxDone = true ∧
    dialCount (run sampleMarshal
        { h := Close (sampleHandler ["bad"] false), pc := .stream, conn := some 0, dialed := 1,
          trace := [.dial "localhost:10000" true (some 0)] }
        [.loop okResp, .loop { okResp with timerFired := true }, .loop okResp]).trace
      ≤ dialCount [Event.dial "localhost:10000" true (some 0)]
          + (if Pc.stream = Pc.dial then 1 else 0) :=
  ⟨rfl, dials_after_Close sampleMarshal
    [.loop okResp, .loop { okResp with timerFired := true }, .loop okResp]
    { h := Close (sampleHandler ["bad"] false), pc := .stream, conn := some 0, dialed := 1,
      trace := [.dial "localhost:10000" true (some 0)] } rfl⟩

/-! ## Transports across a failure -/

/-- Claim C9, on the code: under `LogOnError` the loop dials, receives a record
that cannot be marshalled, reports the error and enters the retry wait with
transport 0 still open (nothing was closed); after the retry delay the next
dial succeeds and transports 0 and 1 are open together. The same happens when
the write of a record fails. -/
theorem failure_in_streaming_leaves_transport_open :
    ∃ s : Sys String, New maxChanLen64 sampleConfig = .ret s ∧
      (run sampleMarshal s [.loop okResp, .log "bad", .loop okResp]).pc = .retry ∧
      stderrLines (run sampleMarshal s [.loop okResp, .log "bad", .loop okResp]).trace
        = ["apex-logentries: json: unsupported type\n"] ∧
      closedConns (run sampleMarshal s [.loop okResp, .log "bad", .loop okResp]).trace = [] ∧
      openConns (run sampleMarshal s [.loop okResp, .log "bad", .loop okResp]).trace = [0] ∧
      openConns (run sampleMarshal s
        [.loop okResp, .log "bad", .loop okResp,
         .loop { okResp with timerFired := true }, .loop okResp]).trace = [0, 1] ∧
      openConns (run sampleMarshal s
        [.loop okResp, .log "r1", .loop { okResp with encWriteErr := some "broken pipe" },
         .loop { okResp with timerFired := true }, .loop okResp]).trace = [0, 1] :=
  ⟨_, rfl, by decide, by decide, by decide, by decide, by decide, by decide⟩

/-! ## Termination of the loop -/

/-- Claim C10, on the code: under `LogOnError` and without TLS the first dial
fails and leaves `conn` nil; the loop reports the error and enters the retry
wait, no transport was ever opened; `Close` is called during the wait, and the
loop, at its label `Done`, calls `conn.Close()` on the nil connection and
panics instead of returning. (With TLS `conn` holds a nil `*tls.Conn` and the
call panics in the same way.) -/
theorem shutdown_in_retry_wait_without_conn_panics :
    ∃ s : Sys String, New maxChanLen64 { sampleConfig with UseTLS := false } = .ret s ∧
      (run sampleMarshal s
        [.loop { okResp with dialErr := some "connection refused" }]).pc = .retry ∧
      (run sampleMarshal s
        [.loop { okResp with dialErr := some "connection refused" }]).conn = none ∧
      openedConns (run sampleMarshal s
        [.loop { okResp with dialErr := some "connection refused" }]).trace = [] ∧
      stderrLines (run sampleMarshal s
        [.loop { okResp with dialErr := some "connection refused" }]).trace
        = ["apex-logentries: connection refused\n"] ∧
      (run sampleMarshal s
        [.loop { okResp with dialErr := some "connection refused" }, .close,
         .loop okResp]).pc = .panicked nilDeref :=
  ⟨_, rfl, by decide, by decide, by decide, by decide, by decide⟩

end Logentries
